import Mathlib

/-!
Verification of the roosterjs list-editing core against its specification.

The development shallowly embeds the TypeScript sources:

* `deleteEmptyList.ts` (delete-selection list collapse),
* `setModelListStartNumber.ts` (both the model API of that name and the
  list edit-feature file: `isAListPattern`, `AutoBullet`, `AutoNumberingList`,
  `isFirstItemOfAList`, `shouldTriggerList`, `MaintainListChain`),
* the unnamed source holding `getListStyleType`, `getPreviousListLevel`,
  `getPreviousListStyle` and the `bulletListType` lexicon.

JavaScript semantics are rendered explicitly: array access out of bounds
yields `Option.none` (JS `undefined`); property access on `undefined`
is a thrown `TypeError`, rendered as `Except.error ()`; numeric truthiness
(`0`, `NaN` and `undefined` are falsy) is rendered by explicit tests.
Helpers of this repository that are not part of the provided sources
(selection predicates, ancestor lookup, metadata codec, style inference)
are modelled from the specification; each such definition is marked
`Modelled from the spec:` in its doc comment.
-/

namespace Roosterjs

/-- Inline segment of the content model.  Each segment carries its
`isSelected` flag; a `text` segment carries its text. -/
inductive Segment where
  | selectionMarker (isSelected : Bool)
  | br (isSelected : Bool)
  | text (content : String) (isSelected : Bool)
  | otherSeg (isSelected : Bool)
deriving DecidableEq, Repr

/-- Segment type discriminant, mirroring `segmentType` strings. -/
inductive SegKind where
  | selectionMarker
  | br
  | text
  | otherSeg
deriving DecidableEq, Repr

def Segment.kind : Segment → SegKind
  | .selectionMarker _ => .selectionMarker
  | .br _ => .br
  | .text _ _ => .text
  | .otherSeg _ => .otherSeg

def Segment.selected : Segment → Bool
  | .selectionMarker s => s
  | .br s => s
  | .text _ s => s
  | .otherSeg s => s

/-- Block-group type discriminant (`blockGroupType`). -/
inductive GroupKind where
  | listItem
  | document
  | otherGroup
deriving DecidableEq, Repr

/-- Ordered / unordered discriminant of a list level (`listType`). -/
inductive ListKind where
  | ordered
  | unordered
deriving DecidableEq, Repr

/-- Parsed per-level metadata (the decoded `editingInfo` of the level's
dataset).  Modelled from the spec: the metadata codec §6 stores an optional
numeric style per style kind. -/
structure MetaRec where
  orderedStyleType : Option Nat
  unorderedStyleType : Option Nat
deriving DecidableEq, Repr

/-- One nesting level of a list item (`ContentModelListLevel`): list kind,
the `startNumberOverride` of its format, and its dataset.  The dataset is
rendered as the parsed metadata record (`none` = no stored metadata); the
dataset object itself always exists in the source, so its JS truthiness is
`true` regardless. -/
structure ListLevel where
  kind : ListKind
  startNumberOverride : Option Int
  dataset : Option MetaRec
deriving DecidableEq, Repr

mutual
/-- A content-model block: paragraph, block group, or any other block
(table / divider / entity), each with enough structure for the claims. -/
inductive Block where
  | paragraph (segments : List Segment)
  | group (g : BlockGroup)
  | otherBlock (selected : Bool)

/-- A content-model block group (`blockGroupType`, child blocks, the
`levels` of a list item, and the group's `format.listStyleType` field as
read by `getListStyleType`). -/
inductive BlockGroup where
  | mk (gt : GroupKind) (blocks : List Block) (levels : List ListLevel)
      (fmtListStyle : Option Nat)
end

def BlockGroup.gt : BlockGroup → GroupKind
  | .mk t _ _ _ => t

def BlockGroup.blocksOf : BlockGroup → List Block
  | .mk _ bs _ _ => bs

def BlockGroup.levelsOf : BlockGroup → List ListLevel
  | .mk _ _ ls _ => ls

def BlockGroup.fmtStyleOf : BlockGroup → Option Nat
  | .mk _ _ _ f => f

mutual
def beqBlock : Block → Block → Bool
  | .paragraph s, .paragraph s2 => s == s2
  | .group g, .group g2 => beqGroup g g2
  | .otherBlock s, .otherBlock s2 => s == s2
  | _, _ => false

def beqGroup : BlockGroup → BlockGroup → Bool
  | .mk t bs ls f, .mk t2 bs2 ls2 f2 =>
    t == t2 && beqBlocks bs bs2 && ls == ls2 && f == f2

def beqBlocks : List Block → List Block → Bool
  | [], [] => true
  | b :: bs, c :: cs => beqBlock b c && beqBlocks bs cs
  | _, _ => false
end

instance : BEq Block := ⟨beqBlock⟩

instance : BEq BlockGroup := ⟨beqGroup⟩

mutual
theorem beqBlock_refl : ∀ b : Block, beqBlock b b = true
  | .paragraph s => by simp [beqBlock]
  | .group g => by simp [beqBlock, beqGroup_refl g]
  | .otherBlock s => by simp [beqBlock]

theorem beqGroup_refl : ∀ g : BlockGroup, beqGroup g g = true
  | .mk t bs ls f => by simp [beqGroup, beqBlocks_refl bs]

theorem beqBlocks_refl : ∀ bs : List Block, beqBlocks bs bs = true
  | [] => by simp [beqBlocks]
  | b :: bs => by simp [beqBlocks, beqBlock_refl b, beqBlocks_refl bs]
end

mutual
theorem beqBlock_eq : ∀ b c : Block, beqBlock b c = true → b = c
  | .paragraph s, .paragraph s2 => by simp [beqBlock]
  | .paragraph _, .group _ => by simp [beqBlock]
  | .paragraph _, .otherBlock _ => by simp [beqBlock]
  | .group _, .paragraph _ => by simp [beqBlock]
  | .group g, .group g2 => by
      intro h
      have := beqGroup_eq g g2 (by simpa [beqBlock] using h)
      simp [this]
  | .group _, .otherBlock _ => by simp [beqBlock]
  | .otherBlock _, .paragraph _ => by simp [beqBlock]
  | .otherBlock _, .group _ => by simp [beqBlock]
  | .otherBlock s, .otherBlock s2 => by simp [beqBlock]

theorem beqGroup_eq : ∀ g h : BlockGroup, beqGroup g h = true → g = h
  | .mk t bs ls f, .mk t2 bs2 ls2 f2 => by
      intro h
      simp only [beqGroup, Bool.and_eq_true, beq_iff_eq] at h
      obtain ⟨⟨⟨ht, hb⟩, hl⟩, hf⟩ := h
      have := beqBlocks_eq bs bs2 hb
      simp [ht, hl, hf, this]

theorem beqBlocks_eq : ∀ bs cs : List Block, beqBlocks bs cs = true → bs = cs
  | [], [] => by simp
  | [], _ :: _ => by simp [beqBlocks]
  | _ :: _, [] => by simp [beqBlocks]
  | b :: bs, c :: cs => by
      intro h
      simp only [beqBlocks, Bool.and_eq_true] at h
      have h1 := beqBlock_eq b c h.1
      have h2 := beqBlocks_eq bs cs h.2
      simp [h1, h2]
end

theorem beqBlock_iff_eq {b c : Block} : beqBlock b c = true ↔ b = c :=
  ⟨beqBlock_eq b c, fun h => h ▸ beqBlock_refl b⟩

instance : LawfulBEq Block where
  eq_of_beq h := beqBlock_eq _ _ h
  rfl := beqBlock_refl _

instance : LawfulBEq BlockGroup where
  eq_of_beq h := beqGroup_eq _ _ h
  rfl := beqGroup_refl _

/-! ### The recursively-empty check of `deleteEmptyList.ts`

`isEmptyBlock` is translated clause for clause; in particular the paragraph
case keeps the source's conjunction
`segment.segmentType !== 'SelectionMarker' && segment.segmentType == 'Br'`
verbatim, and the final `return !!block` maps a present block of any other
type to `true` and an `undefined` block to `false`. -/

mutual
def isEmptyBlockB : Block → Bool
  | .paragraph segments =>
      segments.all fun segment =>
        !(segment.kind == SegKind.selectionMarker) && segment.kind == SegKind.br
  | .group (.mk _ bs _ _) => isEmptyBlocks bs
  | .otherBlock _ => true

def isEmptyBlocks : List Block → Bool
  | [] => true
  | b :: bs => isEmptyBlockB b && isEmptyBlocks bs
end

/-- Embedding of `isEmptyBlock(block: ContentModelBlock | undefined)`. -/
def isEmptyBlock : Option Block → Bool
  | none => false
  | some b => isEmptyBlockB b

/-- The paragraph emptiness test as the specification words it ("all its
inline segments are either a selection-marker placeholder or a line-break").
Written from the spec, to be compared with the source's check. -/
def specEmptyParagraph (segments : List Segment) : Bool :=
  segments.all fun segment =>
    segment.kind == SegKind.selectionMarker || segment.kind == SegKind.br

/-- The source's paragraph check is equivalent to "every segment is a
line-break": the `!== 'SelectionMarker'` conjunct is vacuous because the
`Br` kind is distinct from the selection-marker kind. -/
theorem isEmptyBlockB_paragraph_allBr (segments : List Segment) :
    isEmptyBlockB (.paragraph segments)
      = segments.all fun segment => segment.kind == SegKind.br := by
  unfold isEmptyBlockB
  congr 1
  funext segment
  cases segment <;> rfl

/-! ### Selection predicates and ancestor lookup

`hasSelectionInBlock` / `hasSelectionInBlockGroup` and
`getClosestAncestorBlockGroupIndex` are imported by `deleteEmptyList.ts`
from elsewhere in the repository and are not among the provided sources. -/

mutual
/-- Modelled from the spec: "the item itself had selection overlapping it"
(§4.3) — a block has selection overlap iff some segment (or table-style
block) inside it is selected. -/
def hasSelectionInBlock : Block → Bool
  | .paragraph segments => segments.any Segment.selected
  | .group (.mk _ bs _ _) => hasSelectionInBlocks bs
  | .otherBlock s => s

def hasSelectionInBlocks : List Block → Bool
  | [] => false
  | b :: bs => hasSelectionInBlock b || hasSelectionInBlocks bs
end

/-- Modelled from the spec: selection overlap of a block group is selection
overlap of any of its child blocks. -/
def hasSelectionInBlockGroup (g : BlockGroup) : Bool :=
  hasSelectionInBlocks g.blocksOf

/-- Modelled from the spec: "locate the nearest ancestor block-group of
kind `ListItem` on the insert point's path" (§4.3) — the first index of the
path (ordered innermost first) whose group type is `ListItem`, `-1` when
none exists, matching the `-1` convention seen at the call site. -/
def getClosestAncestorBlockGroupIndex (path : List BlockGroup) : Int :=
  match path.findIdx? fun g => g.gt == GroupKind.listItem with
  | some n => (n : Int)
  | none => -1

/-! ### The insert-point path

In the source, `insertPoint.path` is an array of block groups ordered from
the innermost group to the document root, every entry being a member of the
`blocks` of the next.  The context is embedded without aliasing as the root
group plus the list of child indices leading to the innermost group; the
path array the source reads is recomputed from these, and the in-place
`item.levels = []` mutation becomes a functional update at the item's
position in the root. -/

def childGroup (g : BlockGroup) (i : Nat) : Option BlockGroup :=
  match g.blocksOf.get? i with
  | some (Block.group h) => some h
  | _ => none

/-- The group reached from `g` by following child indices `p`. -/
def descend (g : BlockGroup) : List Nat → Option BlockGroup
  | [] => some g
  | i :: rest => match childGroup g i with
      | some h => descend h rest
      | none => none

/-- The path array as the source sees it (innermost group first, root
last), or `none` when an index is out of range or not a group. -/
def pathOf (g : BlockGroup) : List Nat → Option (List BlockGroup)
  | [] => some [g]
  | i :: rest => match childGroup g i with
      | some h => (pathOf h rest).map (· ++ [g])
      | none => none

/-- Functional update of the group at position `p`, leaving every other
node of the tree untouched. -/
def updateAt (g : BlockGroup) (p : List Nat) (f : BlockGroup → BlockGroup) :
    BlockGroup :=
  match p, g with
  | [], g => f g
  | i :: rest, .mk t bs ls fmt =>
      match bs.get? i with
      | some (Block.group h) =>
          .mk t (bs.set i (Block.group (updateAt h rest f))) ls fmt
      | _ => .mk t bs ls fmt

/-- Clearing `item.levels` at position `p`. -/
def clearLevelsAt (g : BlockGroup) (p : List Nat) : BlockGroup :=
  updateAt g p fun h => .mk h.gt h.blocksOf [] h.fmtStyleOf

/-- The `deleteResult` discriminant of a `DeleteSelectionContext`. -/
inductive DeleteResult where
  | singleChar
  | range
  | nothingToDelete
  | notDeleted
deriving DecidableEq, Repr

/-- The insert point: root group plus the child indices leading to the
innermost group of `insertPoint.path`. -/
structure InsertPoint where
  root : BlockGroup
  idxs : List Nat

/-- The part of `DeleteSelectionContext` that `deleteEmptyList` reads. -/
structure DeleteCtx where
  deleteResult : DeleteResult
  insertPoint : Option InsertPoint

/-- JS array access with a possibly negative index. -/
def getJS (l : List Block) (i : Int) : Option Block :=
  if i < 0 then none else l.get? i.toNat

/-- Embedding of `deleteEmptyList(context)`.  Control flow follows the
source line by line: the `'range'` guard, the closest-ancestor index with
its `-1` convention, the re-check `index >= 0 && item &&
item.blockGroupType == 'ListItem'`, sibling lookup through
`indexOf` on the parent's blocks, and the guarded `item.levels = []`.
A path entry with no parent entry behaves as a structural mismatch (§7). -/
def deleteEmptyList (ctx : DeleteCtx) : DeleteCtx :=
  match ctx.insertPoint with
  | none => ctx
  | some ip =>
    if ctx.deleteResult == DeleteResult.range then
      match pathOf ip.root ip.idxs with
      | none => ctx
      | some path =>
        let index : Int := getClosestAncestorBlockGroupIndex path
        let item : Option BlockGroup :=
          if 0 ≤ index then path.get? index.toNat else none
        match item with
        | none => ctx
        | some it =>
          if 0 ≤ index ∧ it.gt = GroupKind.listItem then
            match path.get? (index.toNat + 1) with
            | none => ctx
            | some parent =>
              let listItemIndex : Int :=
                match parent.blocksOf.findIdx? fun b =>
                    beqBlock b (Block.group it) with
                | some n => (n : Int)
                | none => -1
              let previousBlock : Option Block :=
                if -1 < listItemIndex then getJS parent.blocksOf (listItemIndex - 1)
                else none
              let nextBlock : Option Block :=
                if -1 < listItemIndex then getJS parent.blocksOf (listItemIndex + 1)
                else none
              if hasSelectionInBlockGroup it
                  && (previousBlock.isNone
                      || hasSelectionInBlock (previousBlock.getD (.otherBlock false)))
                  && nextBlock.isSome
                  && isEmptyBlock nextBlock then
                { ctx with
                  insertPoint := some
                    { ip with
                      root := clearLevelsAt ip.root
                        (ip.idxs.take (ip.idxs.length - index.toNat)) } }
              else ctx
          else ctx
    else ctx

/-- A successful `findIdx?` points at an element satisfying the predicate. -/
theorem findIdx?_some_get {α} {p : α → Bool} {l : List α} {i : Nat}
    (h : List.findIdx? p l = some i) :
    i < l.length ∧ ∃ x, l.get? i = some x ∧ p x = true := by
  have h2 := List.findIdx?_eq_some_iff_findIdx_eq.1 h
  have w : List.findIdx p l < l.length := by rw [h2.2]; exact h2.1
  refine ⟨h2.1, l.get ⟨i, h2.1⟩, ?_, ?_⟩
  · simp [List.get?_eq_getElem?, List.getElem?_eq_getElem h2.1]
  · have h3 := @List.findIdx_getElem α p l w
    simp only [h2.2] at h3
    simpa [List.get_eq_getElem] using h3

/-- Claim-side trigger condition of C1, written as the claim words it:
deletion kind `range`; a nearest ancestor `ListItem` on the path; that item
has selection overlap; no previous sibling or a previous sibling with
selection overlap; and an existing, recursively empty next sibling. -/
def c1Trigger (ctx : DeleteCtx) : Bool :=
  ctx.deleteResult == DeleteResult.range &&
  match ctx.insertPoint with
  | none => false
  | some ip =>
    match pathOf ip.root ip.idxs with
    | none => false
    | some path =>
      match path.findIdx? fun g => g.gt == GroupKind.listItem with
      | none => false
      | some j =>
        match path.get? j, path.get? (j + 1) with
        | some item, some parent =>
          hasSelectionInBlockGroup item &&
          (match parent.blocksOf.findIdx? fun b =>
              beqBlock b (Block.group item) with
           | none => false
           | some pos =>
             (pos == 0 ||
               (match parent.blocksOf.get? (pos - 1) with
                | some pb => hasSelectionInBlock pb
                | none => false)) &&
             (match parent.blocksOf.get? (pos + 1) with
              | some nb => isEmptyBlockB nb
              | none => false))
        | _, _ => false

/-- Claim-side effect of C1: the matched list item's levels are cleared,
nothing else changes. -/
def c1Target (ctx : DeleteCtx) : DeleteCtx :=
  match ctx.insertPoint with
  | none => ctx
  | some ip =>
    match pathOf ip.root ip.idxs with
    | none => ctx
    | some path =>
      match path.findIdx? fun g => g.gt == GroupKind.listItem with
      | none => ctx
      | some j =>
        { ctx with
          insertPoint := some
            { ip with
              root := clearLevelsAt ip.root
                (ip.idxs.take (ip.idxs.length - j)) } }

/-- Characterization shared by C1 and C9: `deleteEmptyList` performs the
levels-clearing update exactly under the claim-side trigger condition and
is the identity otherwise. -/
theorem deleteEmptyList_characterization (ctx : DeleteCtx) :
    deleteEmptyList ctx = if c1Trigger ctx then c1Target ctx else ctx := by
  obtain ⟨dr, ipo⟩ := ctx
  cases ipo with
  | none => simp [deleteEmptyList, c1Trigger, c1Target]
  | some ip =>
    by_cases hdr : dr = DeleteResult.range
    · subst hdr
      cases hp : pathOf ip.root ip.idxs with
      | none => simp [deleteEmptyList, c1Trigger, c1Target, hp]
      | some path =>
        cases hidx : path.findIdx? fun g => g.gt == GroupKind.listItem with
        | none =>
          simp [deleteEmptyList, c1Trigger, c1Target, hp, hidx,
            getClosestAncestorBlockGroupIndex]
        | some j =>
          obtain ⟨hjlt, it, hit, hitp⟩ := findIdx?_some_get hidx
          simp only [List.get?_eq_getElem?] at hit
          have hgt : it.gt = GroupKind.listItem := by simpa using hitp
          cases hp2 : path[j + 1]? with
          | none =>
            simp [deleteEmptyList, c1Trigger, c1Target, hp, hidx, hp2,
              getClosestAncestorBlockGroupIndex, hit, hgt]
          | some parent =>
            cases hpos : parent.blocksOf.findIdx? fun b =>
                beqBlock b (Block.group it) with
            | none =>
              simp [deleteEmptyList, c1Trigger, c1Target, hp, hidx, hp2,
                getClosestAncestorBlockGroupIndex, hit, hgt, hpos, getJS,
                isEmptyBlock]
            | some pos =>
              have hposlt : pos < parent.blocksOf.length :=
                (findIdx?_some_get hpos).1
              cases hpos0 : pos with
              | zero =>
                cases hnb : parent.blocksOf[(1 : Nat)]? with
                | none =>
                  simp [deleteEmptyList, c1Trigger, c1Target, hp, hidx, hp2,
                    getClosestAncestorBlockGroupIndex, hit, hgt, hpos, getJS,
                    isEmptyBlock, hpos0, hnb]
                | some nb =>
                  simp [deleteEmptyList, c1Trigger, c1Target, hp, hidx, hp2,
                    getClosestAncestorBlockGroupIndex, hit, hgt, hpos, getJS,
                    isEmptyBlock, hpos0, hnb]
              | succ k =>
                have hk : k < parent.blocksOf.length := by omega
                obtain ⟨pb, hpb⟩ : ∃ pb, parent.blocksOf[k]? = some pb :=
                  ⟨_, (List.getElem?_eq_some_iff).2 ⟨hk, rfl⟩⟩
                have e1 : (-1 : Int) < (k : Int) + 1 := by omega
                have e2 : ¬((k : Int) < 0) := by omega
                have e3 : ¬((k : Int) + 1 + 1 < 0) := by omega
                have e4 : ((k : Int) + 1 + 1).toNat = k + 1 + 1 := by omega
                cases hnb : parent.blocksOf[k + 1 + 1]? with
                | none =>
                  simp [deleteEmptyList, c1Trigger, c1Target, hp, hidx, hp2,
                    getClosestAncestorBlockGroupIndex, hit, hgt, hpos, getJS,
                    isEmptyBlock, hpos0, hnb, hpb, e1, e2, e3, e4]
                | some nb =>
                  simp [deleteEmptyList, c1Trigger, c1Target, hp, hidx, hp2,
                    getClosestAncestorBlockGroupIndex, hit, hgt, hpos, getJS,
                    isEmptyBlock, hpos0, hnb, hpb, e1, e2, e3, e4, and_assoc]
    · have hdr2 : (dr == DeleteResult.range) = false := by
        simpa using hdr
      simp [deleteEmptyList, c1Trigger, hdr2]

/-! ### Frame reasoning for tree updates -/

/-- `agreeAt R p g g2` states that `g2` is `g` with only the node at
position `p` changed, the changed node relating to the original by `R`:
along the path every group keeps its type, levels, format and all child
blocks at other positions. -/
def agreeAt (R : BlockGroup → BlockGroup → Prop) :
    List Nat → BlockGroup → BlockGroup → Prop
  | [], g, g2 => R g g2
  | i :: rest, g, g2 =>
      g2.gt = g.gt ∧ g2.levelsOf = g.levelsOf ∧ g2.fmtStyleOf = g.fmtStyleOf ∧
      g2.blocksOf.length = g.blocksOf.length ∧
      (∀ m, m ≠ i → g2.blocksOf[m]? = g.blocksOf[m]?) ∧
      (match g.blocksOf[i]?, g2.blocksOf[i]? with
       | some (Block.group h), some (Block.group h2) => agreeAt R rest h h2
       | _, b2 => b2 = g.blocksOf[i]?)

/-- A functional update at a reachable position changes only that node. -/
theorem agreeAt_updateAt (R : BlockGroup → BlockGroup → Prop)
    (f : BlockGroup → BlockGroup) (hf : ∀ h, R h (f h)) :
    ∀ (p : List Nat) (g h : BlockGroup), descend g p = some h →
      agreeAt R p g (updateAt g p f)
  | [], g, h, _ => by simpa [agreeAt, updateAt] using hf g
  | i :: rest, g, h, hd => by
      obtain ⟨t, bs, ls, fmt⟩ := g
      simp only [descend, childGroup, BlockGroup.blocksOf,
        List.get?_eq_getElem?] at hd
      cases hbi : bs[i]? with
      | none => rw [hbi] at hd; simp at hd
      | some b =>
        cases b with
        | paragraph s => rw [hbi] at hd; simp at hd
        | otherBlock s => rw [hbi] at hd; simp at hd
        | group h0 =>
          rw [hbi] at hd
          simp only at hd
          have hlt : i < bs.length := by
            by_contra hge
            rw [List.getElem?_eq_none (by omega)] at hbi
            exact Option.noConfusion hbi
          have ih := agreeAt_updateAt R f hf rest h0 h hd
          have heq : updateAt (BlockGroup.mk t bs ls fmt) (i :: rest) f
              = BlockGroup.mk t (bs.set i (Block.group (updateAt h0 rest f)))
                  ls fmt := by
            simp [updateAt, BlockGroup.blocksOf, List.get?_eq_getElem?, hbi]
          rw [heq]
          refine ⟨rfl, rfl, rfl, ?_, ?_, ?_⟩
          · simp [BlockGroup.blocksOf]
          · intro m hm
            simp [BlockGroup.blocksOf, List.getElem?_set_ne (Ne.symm hm)]
          · simp only [BlockGroup.blocksOf, hbi, List.getElem?_set_self hlt]
            exact ih

/-- Descending again after an update at that very position observes the
updated node. -/
theorem descend_updateAt (f : BlockGroup → BlockGroup) :
    ∀ (p : List Nat) (g h : BlockGroup), descend g p = some h →
      descend (updateAt g p f) p = some (f h)
  | [], g, h, hd => by
      simp only [descend, Option.some.injEq] at hd
      subst hd
      simp [descend, updateAt]
  | i :: rest, g, h, hd => by
      obtain ⟨t, bs, ls, fmt⟩ := g
      simp only [descend, childGroup, BlockGroup.blocksOf,
        List.get?_eq_getElem?] at hd
      cases hbi : bs[i]? with
      | none => rw [hbi] at hd; simp at hd
      | some b =>
        cases b with
        | paragraph s => rw [hbi] at hd; simp at hd
        | otherBlock s => rw [hbi] at hd; simp at hd
        | group h0 =>
          rw [hbi] at hd
          simp only at hd
          have hlt : i < bs.length := by
            by_contra hge
            rw [List.getElem?_eq_none (by omega)] at hbi
            exact Option.noConfusion hbi
          have ih := descend_updateAt f rest h0 h hd
          simp [descend, updateAt, childGroup, BlockGroup.blocksOf, hbi,
            List.get?_eq_getElem?, List.getElem?_set_self hlt, ih]

/-- A successful path build has one more entry than there are indices. -/
theorem pathOf_length :
    ∀ (idxs : List Nat) (g : BlockGroup) (path : List BlockGroup),
      pathOf g idxs = some path → path.length = idxs.length + 1
  | [], g, path, h => by
      simp only [pathOf, Option.some.injEq] at h
      simp [h.symm]
  | i :: rest, g, path, h => by
      simp only [pathOf] at h
      cases hc : childGroup g i with
      | none => rw [hc] at h; simp at h
      | some h0 =>
        simp only [hc] at h
        cases hp0 : pathOf h0 rest with
        | none => rw [hp0] at h; simp at h
        | some path0 =>
          rw [hp0] at h
          simp only [Option.map_some', Option.some.injEq] at h
          have := pathOf_length rest h0 path0 hp0
          simp [h.symm, this]

/-- Entry `m` of the path array is the group reached by the first
`idxs.length - m` child indices. -/
theorem pathOf_descend :
    ∀ (idxs : List Nat) (g : BlockGroup) (path : List BlockGroup),
      pathOf g idxs = some path → ∀ m, m ≤ idxs.length →
        path[m]? = descend g (idxs.take (idxs.length - m))
  | [], g, path, h, m, hm => by
      simp only [pathOf, Option.some.injEq] at h
      have hm0 : m = 0 := by simpa using hm
      subst hm0
      simp [h.symm, descend]
  | i :: rest, g, path, h, m, hm => by
      simp only [pathOf] at h
      cases hc : childGroup g i with
      | none => rw [hc] at h; simp at h
      | some h0 =>
        simp only [hc] at h
        cases hp0 : pathOf h0 rest with
        | none => rw [hp0] at h; simp at h
        | some path0 =>
        rw [hp0] at h
        simp only [Option.map_some', Option.some.injEq] at h
        have hcat := h
        have hlen0 := pathOf_length rest h0 path0 hp0
        by_cases hme : m = rest.length + 1
        · subst hme
          have h1 : (path0 ++ [g])[path0.length]? = some g := by
            simp
          rw [hlen0] at h1
          have htake0 : (i :: rest).length - (rest.length + 1) = 0 := by
            simp
          rw [hcat.symm, h1, htake0]
          simp [descend]
        · have hmlt : m < rest.length + 1 := by
            simp only [List.length_cons] at hm
            omega
          have ih := pathOf_descend rest h0 path0 hp0 m (by omega)
          have htake : (i :: rest).take ((i :: rest).length - m)
              = i :: rest.take (rest.length - m) := by
            simp only [List.length_cons]
            rw [show rest.length + 1 - m = (rest.length - m) + 1 by omega]
            rfl
          rw [htake]
          have h2 : (path0 ++ [g])[m]? = path0[m]? :=
            List.getElem?_append_left (by omega)
          simp only [hcat.symm, h2, descend, hc]
          exact ih

/-! ### Claim theorems for the delete-selection list collapse -/

/-- C1: `deleteEmptyList` clears a list item's levels to the empty
sequence exactly when the deletion kind is `range`, a nearest ancestor
block-group of kind `ListItem` exists on the insert point's path, that item
has selection overlap, either no previous sibling block exists or the
previous sibling also has selection overlap, and a next sibling block
exists and is recursively empty; in every other case the context is left
untouched.  `c1Trigger` states this condition in the claim's terms and
`c1Target` performs exactly the levels-clearing update. -/
theorem c1_deleteEmptyList_iff_trigger (ctx : DeleteCtx) :
    deleteEmptyList ctx = if c1Trigger ctx then c1Target ctx else ctx :=
  deleteEmptyList_characterization ctx

/-- C2 (divergence witness): the source's recursively-empty check rejects a
paragraph whose only segment is a selection marker, while the
specification's wording ("either a selection-marker placeholder or a
line-break") accepts it — the `!== 'SelectionMarker'` conjunct makes the
source's test demand that every segment be a `Br`. -/
theorem c2_isEmptyBlock_marker_only_paragraph :
    isEmptyBlock (some (Block.paragraph [Segment.selectionMarker true])) = false
    ∧ specEmptyParagraph [Segment.selectionMarker true] = true := by
  constructor
  · simp [isEmptyBlock, isEmptyBlockB, Segment.kind]
  · simp [specEmptyParagraph, Segment.kind]

/-- C9: `deleteEmptyList` makes no structural change other than clearing
the matched list item's levels: the result is either the untouched context
or the context with the root updated at one position holding a `ListItem`,
where `agreeAt` certifies that every other node, block, segment and format
field is unchanged and the matched item keeps its type, blocks and format
and loses only its levels. -/
theorem c9_deleteEmptyList_frame (ctx : DeleteCtx) :
    deleteEmptyList ctx = ctx ∨
    ∃ ip p item, ctx.insertPoint = some ip ∧
      descend ip.root p = some item ∧ item.gt = GroupKind.listItem ∧
      deleteEmptyList ctx =
        { ctx with insertPoint := some { ip with root := clearLevelsAt ip.root p } } ∧
      agreeAt (fun g g2 => g2 = BlockGroup.mk g.gt g.blocksOf [] g.fmtStyleOf)
        p ip.root (clearLevelsAt ip.root p) ∧
      descend (clearLevelsAt ip.root p) p
        = some (BlockGroup.mk item.gt item.blocksOf [] item.fmtStyleOf) := by
  obtain ⟨dr, ipo⟩ := ctx
  cases ipo with
  | none => left; simp [deleteEmptyList]
  | some ip =>
    cases hp : pathOf ip.root ip.idxs with
    | none =>
      left
      rw [deleteEmptyList_characterization]
      simp [c1Trigger, hp]
    | some path =>
      cases hidx : path.findIdx? fun g => g.gt == GroupKind.listItem with
      | none =>
        left
        rw [deleteEmptyList_characterization]
        simp [c1Trigger, hp, hidx]
      | some j =>
        rw [deleteEmptyList_characterization]
        by_cases ht :
            c1Trigger { deleteResult := dr, insertPoint := some ip } = true
        · right
          obtain ⟨hjlt, it, hit, hitp⟩ := findIdx?_some_get hidx
          simp only [List.get?_eq_getElem?] at hit
          have hgt : it.gt = GroupKind.listItem := by simpa using hitp
          have hlen := pathOf_length ip.idxs ip.root path hp
          have hjle : j ≤ ip.idxs.length := by omega
          have hdesc :
              descend ip.root (ip.idxs.take (ip.idxs.length - j)) = some it := by
            have h2 := pathOf_descend ip.idxs ip.root path hp j hjle
            rw [hit] at h2
            exact h2.symm
          refine ⟨ip, ip.idxs.take (ip.idxs.length - j), it, rfl, hdesc, hgt,
            ?_, ?_, ?_⟩
          · simp [ht, c1Target, hp, hidx]
          · simp only [clearLevelsAt]
            exact agreeAt_updateAt
              (fun g g2 => g2 = BlockGroup.mk g.gt g.blocksOf [] g.fmtStyleOf)
              (fun h => BlockGroup.mk h.gt h.blocksOf [] h.fmtStyleOf)
              (fun h => rfl) _ _ _ hdesc
          · have h3 := descend_updateAt
              (fun h => BlockGroup.mk h.gt h.blocksOf [] h.fmtStyleOf)
              _ _ _ hdesc
            simpa [clearLevelsAt] using h3
        · left
          simp [ht]

/-! ### `setModelListStartNumber` (model API)

`getFirstSelectedListItem` comes from `roosterjs-content-model-dom` and is
not among the provided sources; it is modelled from the spec as the first
list item (document pre-order) with selection overlap.  The source then
reads `listItem?.levels[listItem?.levels.length - 1]` and, when that level
exists, assigns its `format.startNumberOverride` in place; the in-place
assignment is rendered as a functional update at the found item's
position. -/

mutual
/-- Modelled from the spec: pre-order position of the first selected list
item inside a block group (`none` when there is none). -/
def fsliPathG : BlockGroup → Option (List Nat)
  | .mk t bs ls f =>
      if (BlockGroup.mk t bs ls f).gt == GroupKind.listItem
          && hasSelectionInBlockGroup (BlockGroup.mk t bs ls f) then some []
      else (fsliPathBs bs).map fun ip => ip.1 :: ip.2

/-- Modelled from the spec: index of the child block containing the first
selected list item, together with the path inside it. -/
def fsliPathBs : List Block → Option (Nat × List Nat)
  | [] => none
  | b :: bs =>
      match b with
      | .group h =>
          match fsliPathG h with
          | some p => some (0, p)
          | none => (fsliPathBs bs).map fun ip => (ip.1 + 1, ip.2)
      | _ => (fsliPathBs bs).map fun ip => (ip.1 + 1, ip.2)
end

/-- Modelled from the spec: `getFirstSelectedListItem(model)`. -/
def getFirstSelectedListItem (model : BlockGroup) : Option BlockGroup :=
  (fsliPathG model).bind fun p => descend model p

/-- Assignment `level.format.startNumberOverride = value` on the last
level of an item, leaving every other field alone. -/
def setLastLevelOverride (g : BlockGroup) (value : Int) : BlockGroup :=
  .mk g.gt g.blocksOf
    (match g.levelsOf.get? (g.levelsOf.length - 1) with
     | some lvl =>
        g.levelsOf.set (g.levelsOf.length - 1)
          { lvl with startNumberOverride := some value }
     | none => g.levelsOf)
    g.fmtStyleOf

/-- Embedding of `setModelListStartNumber(model, value)`: look up the first
selected list item, read its last level, and if that level exists set its
start-number override and return `true`, else return `false`. -/
def setModelListStartNumber (model : BlockGroup) (value : Int) :
    Bool × BlockGroup :=
  let listItem := getFirstSelectedListItem model
  let level :=
    listItem.bind fun li => li.levelsOf.get? (li.levelsOf.length - 1)
  match level with
  | some _ =>
      (true,
        match fsliPathG model with
        | some p => updateAt model p fun g => setLastLevelOverride g value
        | none => model)
  | none => (false, model)

mutual
/-- The pre-order position returned by `fsliPathG` holds a selected list
item. -/
theorem fsliPathG_descend : ∀ (g : BlockGroup) (p : List Nat),
    fsliPathG g = some p →
      ∃ li, descend g p = some li ∧ li.gt = GroupKind.listItem
        ∧ hasSelectionInBlockGroup li = true
  | .mk t bs ls f, p, h => by
      cases hc : (BlockGroup.mk t bs ls f).gt == GroupKind.listItem
          && hasSelectionInBlockGroup (BlockGroup.mk t bs ls f) with
      | true =>
        simp only [fsliPathG, hc, if_true, Option.some.injEq] at h
        subst h
        simp only [Bool.and_eq_true, beq_iff_eq] at hc
        exact ⟨_, rfl, hc.1, hc.2⟩
      | false =>
        simp only [fsliPathG, hc, Bool.false_eq_true, if_false] at h
        cases hbs : fsliPathBs bs with
        | none => rw [hbs] at h; simp at h
        | some ip =>
          rw [hbs] at h
          simp only [Option.map_some', Option.some.injEq] at h
          obtain ⟨h0, li, hb, hd, hgt, hsel⟩ := fsliPathBs_descend bs ip hbs
          refine ⟨li, ?_, hgt, hsel⟩
          rw [h.symm]
          simp only [descend, childGroup, BlockGroup.blocksOf,
            List.get?_eq_getElem?, hb]
          exact hd

theorem fsliPathBs_descend : ∀ (bs : List Block) (ip : Nat × List Nat),
    fsliPathBs bs = some ip →
      ∃ h0 li, bs[ip.1]? = some (Block.group h0) ∧ descend h0 ip.2 = some li
        ∧ li.gt = GroupKind.listItem ∧ hasSelectionInBlockGroup li = true
  | [], ip, h => by simp [fsliPathBs] at h
  | b :: bs, ip, h => by
      cases b with
      | group h1 =>
        cases hg : fsliPathG h1 with
        | some p =>
          simp only [fsliPathBs, hg, Option.some.injEq] at h
          subst h
          obtain ⟨li, hd, hgt, hsel⟩ := fsliPathG_descend h1 p hg
          exact ⟨h1, li, by simp, hd, hgt, hsel⟩
        | none =>
          simp only [fsliPathBs, hg] at h
          cases hbs : fsliPathBs bs with
          | none => rw [hbs] at h; simp at h
          | some ip0 =>
            rw [hbs] at h
            simp only [Option.map_some', Option.some.injEq] at h
            obtain ⟨h0, li, hb, hd, hgt, hsel⟩ := fsliPathBs_descend bs ip0 hbs
            subst h
            exact ⟨h0, li, by simpa using hb, hd, hgt, hsel⟩
      | paragraph s =>
        simp only [fsliPathBs] at h
        cases hbs : fsliPathBs bs with
        | none => rw [hbs] at h; simp at h
        | some ip0 =>
          rw [hbs] at h
          simp only [Option.map_some', Option.some.injEq] at h
          obtain ⟨h0, li, hb, hd, hgt, hsel⟩ := fsliPathBs_descend bs ip0 hbs
          subst h
          exact ⟨h0, li, by simpa using hb, hd, hgt, hsel⟩
      | otherBlock s =>
        simp only [fsliPathBs] at h
        cases hbs : fsliPathBs bs with
        | none => rw [hbs] at h; simp at h
        | some ip0 =>
          rw [hbs] at h
          simp only [Option.map_some', Option.some.injEq] at h
          obtain ⟨h0, li, hb, hd, hgt, hsel⟩ := fsliPathBs_descend bs ip0 hbs
          subst h
          exact ⟨h0, li, by simpa using hb, hd, hgt, hsel⟩
end

/-- C10: `setModelListStartNumber` returns `true` and sets
`startNumberOverride` on the last level of the first selected list item,
changing no other field of the model (certified by `agreeAt` with
`setLastLevelOverride` at the item's position); when no selected list item
exists, or its levels sequence is empty, it returns `false` and leaves the
model entirely unchanged. -/
theorem c10_setModelListStartNumber_spec (model : BlockGroup) (value : Int) :
    (fsliPathG model = none →
      setModelListStartNumber model value = (false, model)) ∧
    (∀ p, fsliPathG model = some p →
      ∃ li, descend model p = some li ∧ li.gt = GroupKind.listItem ∧
        hasSelectionInBlockGroup li = true ∧
        (li.levelsOf = [] →
          setModelListStartNumber model value = (false, model)) ∧
        (li.levelsOf ≠ [] →
          (setModelListStartNumber model value).1 = true ∧
          agreeAt (fun g g2 => g2 = setLastLevelOverride g value) p model
            (setModelListStartNumber model value).2)) := by
  constructor
  · intro hn
    simp [setModelListStartNumber, getFirstSelectedListItem, hn]
  · intro p hp
    obtain ⟨li, hd, hgt, hsel⟩ := fsliPathG_descend model p hp
    refine ⟨li, hd, hgt, hsel, ?_, ?_⟩
    · intro hlv
      simp [setModelListStartNumber, getFirstSelectedListItem, hp, hd, hlv]
    · intro hlv
      obtain ⟨lvl, hlast⟩ : ∃ lvl,
          li.levelsOf[li.levelsOf.length - 1]? = some lvl := by
        have hpos : li.levelsOf.length - 1 < li.levelsOf.length := by
          cases hll : li.levelsOf with
          | nil => exact absurd hll hlv
          | cons a as => simp
        refine ⟨li.levelsOf.get ⟨li.levelsOf.length - 1, hpos⟩, ?_⟩
        simp [List.getElem?_eq_getElem hpos]
      constructor
      · simp [setModelListStartNumber, getFirstSelectedListItem, hp, hd, hlast]
      · have hres : (setModelListStartNumber model value).2
            = updateAt model p fun g => setLastLevelOverride g value := by
          simp [setModelListStartNumber, getFirstSelectedListItem, hp, hd,
            hlast]
        rw [hres]
        exact agreeAt_updateAt
          (fun g g2 => g2 = setLastLevelOverride g value)
          (fun g => setLastLevelOverride g value)
          (fun h => rfl) p model li hd

/-- Concrete model used by witnesses: a document holding one selected list
item with a single unordered level. -/
def witnessItem : BlockGroup :=
  .mk .listItem [Block.paragraph [Segment.selectionMarker true]]
    [⟨ListKind.unordered, none, none⟩] none

def witnessModel : BlockGroup :=
  .mk .document [Block.group witnessItem] [] none

/-- Witness for C10: on the concrete one-item model the call returns
`true` and rewrites the model only at the item's position. -/
theorem c10_setModelListStartNumber_spec_witness :
    (setModelListStartNumber witnessModel 5).1 = true ∧
    agreeAt (fun g g2 => g2 = setLastLevelOverride g 5) [0] witnessModel
      (setModelListStartNumber witnessModel 5).2 := by
  have hpath : fsliPathG witnessModel = some [0] := by
    simp [fsliPathG, fsliPathBs, witnessModel, witnessItem,
      hasSelectionInBlockGroup, hasSelectionInBlocks, hasSelectionInBlock,
      BlockGroup.gt, BlockGroup.blocksOf, Segment.selected]
  obtain ⟨li, hd, hgt, hsel, hemp, hne⟩ :=
    (c10_setModelListStartNumber_spec witnessModel 5).2 [0] hpath
  have hli : li = witnessItem := by
    simp only [descend, childGroup, witnessModel, BlockGroup.blocksOf,
      List.get?_eq_getElem?] at hd
    simp at hd
    exact hd.symm
  exact hne (by simp [hli, witnessItem, BlockGroup.levelsOf])

/-! ### Marker-string parsing (list edit features)

`parseInt`, string `replace`/`trim` and the source regexes are embedded as
executable functions on character lists.  JS `NaN` and `undefined` results
are both rendered as `none` (the only observable difference, passing `NaN`
rather than `undefined` as a start number, is outside the claims). -/

def decVal (ds : List Char) : Int :=
  ds.foldl (fun acc c => acc * 10 + ((c.toNat - '0'.toNat : Nat) : Int)) 0

def isHexDigitCh (c : Char) : Bool :=
  c.isDigit || ('a' ≤ c && c ≤ 'f') || ('A' ≤ c && c ≤ 'F')

def hexDigitVal (c : Char) : Nat :=
  if c.isDigit then c.toNat - '0'.toNat
  else if 'a' ≤ c && c ≤ 'f' then c.toNat - 'a'.toNat + 10
  else c.toNat - 'A'.toNat + 10

def hexVal (ds : List Char) : Int :=
  ds.foldl (fun acc c => acc * 16 + (hexDigitVal c : Int)) 0

/-- Embedding of JS `parseInt(s)` (radix unspecified): skip leading
whitespace, optional sign, `0x`/`0X` switches to hexadecimal, parse the
maximal digit run, `NaN` (here `none`) when no digit follows. -/
def parseIntJS (s : String) : Option Int :=
  let cs := s.toList.dropWhile Char.isWhitespace
  let signed : Int × List Char :=
    match cs with
    | '-' :: rest => (-1, rest)
    | '+' :: rest => (1, rest)
    | _ => (1, cs)
  match signed.2 with
  | '0' :: x :: rest =>
      if x = 'x' ∨ x = 'X' then
        let ds := rest.takeWhile isHexDigitCh
        if ds = [] then none else some (signed.1 * hexVal ds)
      else some (signed.1 * decVal (('0' :: x :: rest).takeWhile Char.isDigit))
  | other =>
      let ds := other.takeWhile Char.isDigit
      if ds = [] then none else some (signed.1 * decVal ds)

/-- JS `String.prototype.trim` on a character list. -/
def trimChars (cs : List Char) : List Char :=
  ((cs.dropWhile Char.isWhitespace).reverse.dropWhile Char.isWhitespace).reverse

/-- The `item.replace(/\(|\)|\-|\./g, '').trim()` step of
`isFirstItemOfAList`. -/
def stripPunctTrim (item : String) : String :=
  String.mk (trimChars (item.toList.filter
    fun c => !(c = '(' || c = ')' || c = '-' || c = '.')))

/-- Shared letter branch of `isFirstItemOfAList`. -/
def firstItemLetter (item : String) : Option Nat :=
  let letter := stripPunctTrim item
  if letter.length = 1
      ∧ (letter = "i" ∨ letter = "a" ∨ letter = "I" ∨ letter = "A")
  then some 1 else none

/-- Embedding of `isFirstItemOfAList(item)`: `parseInt` equal to `1`
(with JS truthiness: `NaN` and `0` fall through), else a lone
`i`/`a`/`I`/`A` after stripping `(` `)` `-` `.` and trimming. -/
def isFirstItemOfAList (item : String) : Option Nat :=
  match parseIntJS item with
  | some n => if n ≠ 0 ∧ n = 1 then some 1 else firstItemLetter item
  | none => firstItemLetter item

/-- Start number the `AutoNumberingList` handler passes to
`toggleNumbering`: `isFirstItemOfAList(text) ? 1 : parseInt(text)`, then
`isLi && number !== 1 ? undefined : number`. -/
def autoNumberingStartNumber (textBeforeCursor : String) (isLi : Bool) :
    Option Int :=
  let number : Option Int :=
    match isFirstItemOfAList textBeforeCursor with
    | some _ => some 1
    | none => parseIntJS textBeforeCursor
  if isLi ∧ number ≠ some 1 then none else number

/-- `1 ≤ length ≤ 2` run of decimal digits. -/
def digits12 (ds : List Char) : Bool :=
  (ds.length = 1 || ds.length = 2) && ds.all Char.isDigit

/-- Embedding of `isAListPattern(textBeforeCursor)`: the source regex
accepts exactly `*`, `-`, one or two digits followed by one of
`.` `>` `)` `-`, or one or two digits surrounded by parentheses. -/
def isAListPattern (s : String) : Bool :=
  let cs := s.toList
  if cs = ['*'] || cs = ['-'] then true
  else if cs.head? = some '(' then
    let rest := cs.tail
    let ds := rest.takeWhile Char.isDigit
    (ds.length = 1 || ds.length = 2) && rest.drop ds.length = [')']
  else
    let ds := cs.takeWhile Char.isDigit
    (ds.length = 1 || ds.length = 2) && (cs.drop ds.length = ['.']
      || cs.drop ds.length = ['>'] || cs.drop ds.length = [')']
      || cs.drop ds.length = ['-'])

/-- JS `text.indexOf(c) == 0` for a single character. -/
def startsWithChar (s : String) (c : Char) : Bool :=
  match s.toList with
  | d :: _ => d = c
  | [] => false

/-- Outcome of the legacy `AutoBullet` handler. -/
inductive BulletOutcome where
  | noOp
  | bullet
  | numbering (start : Option Int)
deriving DecidableEq, Repr

/-- Embedding of the `AutoBullet` handler body (inside the undo
snapshot): no-op when the typed marker text cannot be located again;
bullet list when the text begins with `*` or `-`; numbered list with no
explicit start number when the text matches the list pattern; otherwise,
when exactly one region is selected, numbered list starting at
`parseInt(textBeforeCursor)`. -/
def autoBulletHandle (textBeforeCursor : String) (textRangeFound : Bool)
    (regionsLen : Nat) : BulletOutcome :=
  if !textRangeFound then .noOp
  else if startsWithChar textBeforeCursor '*'
      || startsWithChar textBeforeCursor '-' then .bullet
  else if isAListPattern textBeforeCursor then .numbering none
  else if regionsLen = 1 then .numbering (parseIntJS textBeforeCursor)
  else .noOp

/-- `isFirstItemOfAList` only ever signals with the value `1`. -/
theorem isFirstItemOfAList_eq_one {s : String} {v : Nat}
    (h : isFirstItemOfAList s = some v) : v = 1 := by
  unfold isFirstItemOfAList firstItemLetter at h
  cases hpi : parseIntJS s with
  | some n =>
    rw [hpi] at h
    by_cases hn : n ≠ 0 ∧ n = 1
    · simp [hn] at h
      omega
    · simp only [hn, if_false] at h
      split at h <;> simp_all
  | none =>
    rw [hpi] at h
    split at h <;> simp_all

/-- C5 counterexample: the marker `"(1)"` strips to exactly `"1"`, yet the
first-item check does not signal (JS `parseInt("(1)")` is `NaN` and the
letter branch rejects the digit), and the handler passes no forced start
number `1` for it. -/
theorem c5_counterexample_paren_one :
    isFirstItemOfAList "(1)" = none ∧ stripPunctTrim "(1)" = "1"
      ∧ autoNumberingStartNumber "(1)" false = none := by
  decide

/-- C5 (amended): the first-item check signals exactly when
`parseInt(marker)` is `1` or the marker, after stripping `(` `)` `-` `.`
and trimming, is a lone `i`/`a`/`I`/`A`; when it signals, the
auto-numbering action passes `1`; for other markers, the parsed integer is
passed as the explicit start number exactly when no previous list item
precedes the line, and nothing is passed otherwise. -/
theorem c5_first_item_and_start_number :
    (∀ s : String, isFirstItemOfAList s = some 1 ↔
      (parseIntJS s = some 1 ∨
        ((stripPunctTrim s).length = 1 ∧
          (stripPunctTrim s = "i" ∨ stripPunctTrim s = "a"
            ∨ stripPunctTrim s = "I" ∨ stripPunctTrim s = "A")))) ∧
    (∀ (s : String) (isLi : Bool), autoNumberingStartNumber s isLi =
      if isFirstItemOfAList s = some 1 then some 1
      else if isLi then none else parseIntJS s) := by
  constructor
  · intro s
    unfold isFirstItemOfAList firstItemLetter
    cases hpi : parseIntJS s with
    | some n =>
      by_cases hn : n ≠ 0 ∧ n = 1
      · simp [hn, hn.2]
      · have hne : ¬(some n = some 1) := by
          intro hc
          simp only [Option.some.injEq] at hc
          exact hn ⟨by omega, hc⟩
        simp only [hn, if_false, hne, false_or]
        split <;> simp_all
    | none =>
      simp only [reduceCtorEq, false_or]
      split <;> simp_all
  · intro s isLi
    unfold autoNumberingStartNumber
    cases hfi : isFirstItemOfAList s with
    | some v =>
      have hv := isFirstItemOfAList_eq_one hfi
      subst hv
      simp [hfi]
    | none =>
      have hne : parseIntJS s ≠ some 1 := by
        intro hc
        unfold isFirstItemOfAList at hfi
        rw [hc] at hfi
        simp at hfi
      cases isLi with
      | true => simp [hfi, hne]
      | false => simp [hfi]

/-- A string in the list-pattern language that is not exactly `*` or `-`
starts with a digit or an opening parenthesis, hence not with `*` or `-`. -/
theorem isAListPattern_no_bullet_start (cs : List Char)
    (h : isAListPattern (String.mk cs) = true)
    (hstar : cs ≠ ['*']) (hdash : cs ≠ ['-']) :
    startsWithChar (String.mk cs) '*' = false
      ∧ startsWithChar (String.mk cs) '-' = false := by
  have hns : ¬(cs = ['*'] || cs = ['-']) = true := by
    simp [hstar, hdash]
  unfold isAListPattern at h
  simp only [String.toList] at h
  simp only [hns, Bool.false_eq_true, if_false] at h
  cases cs with
  | nil => simp at h
  | cons c rest =>
    by_cases hpar : c = '('
    · subst hpar
      exact ⟨by simp [startsWithChar], by simp [startsWithChar]⟩
    · have hhd : ¬((c :: rest).head? = some '(') := by simp [hpar]
      simp only [hhd, if_false] at h
      simp only [Bool.and_eq_true] at h
      have hds := h.1
      have hdig : c.isDigit = true := by
        by_contra hcd
        simp only [List.takeWhile_cons] at hds
        rw [Bool.not_eq_true] at hcd
        rw [hcd] at hds
        simp at hds
      constructor
      · simp only [startsWithChar, String.toList]
        have : c ≠ '*' := by
          intro hc
          rw [hc] at hdig
          simp [Char.isDigit] at hdig
        simp [this]
      · simp only [startsWithChar, String.toList]
        have : c ≠ '-' := by
          intro hc
          rw [hc] at hdig
          simp [Char.isDigit] at hdig
        simp [this]

/-- C6 counterexample: `"2."` matches the generic list pattern and JS
`parseInt` yields `2`, but the legacy AutoBullet handler creates the
numbered list with no explicit start number. -/
theorem c6_counterexample_two_dot :
    autoBulletHandle "2." true 1 = BulletOutcome.numbering none
      ∧ parseIntJS "2." = some 2 := by
  decide

/-- C6 (amended): on the legacy AutoBullet path with the marker text
locatable, a matched text of exactly `*` or `-` creates a bullet list (the
source tests `indexOf == 0`, but within the pattern language only the
exact strings start with those characters), and every other text matching
the generic list-pattern regex creates a numbered list with no explicit
start number; the parsed integer is used only on the fallback branch for
non-pattern text with a single selected region. -/
theorem c6_autoBullet_dispatch (s : String) (regionsLen : Nat)
    (h : isAListPattern s = true) :
    autoBulletHandle s true regionsLen =
      if s = "*" ∨ s = "-" then BulletOutcome.bullet
      else BulletOutcome.numbering none := by
  obtain ⟨cs⟩ := s
  by_cases hstar : cs = ['*']
  · subst hstar
    have hmk : String.mk ['*'] = "*" := rfl
    simp [autoBulletHandle, startsWithChar, hmk]
  · by_cases hdash : cs = ['-']
    · subst hdash
      have hmk : String.mk ['-'] = "-" := rfl
      simp [autoBulletHandle, startsWithChar, hmk]
    · obtain ⟨h1, h2⟩ := isAListPattern_no_bullet_start cs h hstar hdash
      have hne1 : ¬(String.mk cs = "*") := by
        intro hc
        exact hstar (String.ext_iff.1 hc)
      have hne2 : ¬(String.mk cs = "-") := by
        intro hc
        exact hdash (String.ext_iff.1 hc)
      simp [autoBulletHandle, h1, h2, h, hne1, hne2]

/-- Witness for C6 (amended): the pattern text `"1."` yields a numbered
list with no explicit start number. -/
theorem c6_autoBullet_dispatch_witness :
    autoBulletHandle "1." true 1 = BulletOutcome.numbering none := by
  have h := c6_autoBullet_dispatch "1." 1 (by decide)
  rw [if_neg (by decide)] at h
  exact h

/-! ### List-chain maintenance

`VListChain.createListChains` / `commitListChains` live in
`roosterjs-editor-dom` / `roosterjs-editor-api`; only their caller
(`MaintainListChain`, `getListChains`) is among the provided sources.  The
commit operation is therefore modelled from the spec (§4.2): each chain
member records its items (each item its levels), and committing rewrites
each non-initial member's start-number override to one plus the item
counts of all earlier members, applied only to the first level of the
first item. -/

/-- Modelled from the spec: one chain member — a list, as the sequence of
its items, each item carrying its levels. -/
structure ChainMember where
  items : List (List ListLevel)
deriving DecidableEq, Repr

/-- Item count of a chain member at scan time. -/
def memberCount (m : ChainMember) : Nat := m.items.length

/-- Modelled from the spec: write the start-number override `v` on the
first level of the first item of the member; members without a first item
or first level are skipped (§7 partial-failure policy). -/
def setStartOverrideFirst (m : ChainMember) (v : Int) : ChainMember :=
  match m.items with
  | (lvl :: lvls) :: rest =>
      ⟨({ lvl with startNumberOverride := some v } :: lvls) :: rest⟩
  | _ => m

/-- Modelled from the spec: rewrite every member of the remainder of a
chain, `acc` holding the item counts of all members already passed. -/
def commitAux (acc : Nat) : List ChainMember → List ChainMember
  | [] => []
  | m :: rest =>
      setStartOverrideFirst m ((acc : Int) + 1)
        :: commitAux (acc + memberCount m) rest

/-- Modelled from the spec: `commitChains` leaves the first chain member
untouched and renumbers the second and later members. -/
def commitChains : List ChainMember → List ChainMember
  | [] => []
  | m :: rest => m :: commitAux (memberCount m) rest

/-- Sum of the item counts of a chain prefix. -/
def countsSum (c : List ChainMember) : Nat := (c.map memberCount).sum

theorem setStartOverrideFirst_count (m : ChainMember) (v : Int) :
    memberCount (setStartOverrideFirst m v) = memberCount m := by
  unfold setStartOverrideFirst memberCount
  split <;> simp_all

theorem setStartOverrideFirst_idem (m : ChainMember) (v : Int) :
    setStartOverrideFirst (setStartOverrideFirst m v) v
      = setStartOverrideFirst m v := by
  obtain ⟨items⟩ := m
  cases items with
  | nil => rfl
  | cons first rest =>
    cases first with
    | nil => rfl
    | cons lvl lvls => rfl

theorem commitAux_length (l : List ChainMember) :
    ∀ acc, (commitAux acc l).length = l.length := by
  induction l with
  | nil => intro acc; rfl
  | cons m rest ih => intro acc; simp [commitAux, ih]

theorem commitAux_get? (l : List ChainMember) :
    ∀ acc i m, l.get? i = some m →
      (commitAux acc l).get? i
        = some (setStartOverrideFirst m
            (((acc + countsSum (l.take i) : Nat) : Int) + 1)) := by
  induction l with
  | nil => intro acc i m h; simp at h
  | cons m0 rest ih =>
    intro acc i m h
    cases i with
    | zero =>
      simp only [List.get?_eq_getElem?] at h
      simp only [List.getElem?_cons_zero, Option.some.injEq] at h
      subst h
      simp [commitAux, countsSum]
    | succ i =>
      simp only [List.get?_eq_getElem?, List.getElem?_cons_succ] at h
      have := ih (acc + memberCount m0) i m (by
        simpa [List.get?_eq_getElem?] using h)
      simp only [commitAux, List.get?_eq_getElem?, List.getElem?_cons_succ]
      simp only [List.get?_eq_getElem?] at this
      rw [this]
      have harith : acc + memberCount m0 + countsSum (rest.take i)
          = acc + countsSum ((m0 :: rest).take (i + 1)) := by
        simp [countsSum, List.take_succ_cons]
        omega
      rw [harith]

theorem commitAux_idem (l : List ChainMember) :
    ∀ acc, commitAux acc (commitAux acc l) = commitAux acc l := by
  induction l with
  | nil => intro acc; rfl
  | cons m rest ih =>
    intro acc
    simp only [commitAux, setStartOverrideFirst_idem,
      setStartOverrideFirst_count, List.cons.injEq, true_and]
    exact ih (acc + memberCount m)

/-- C3: after `commitChains`, every non-initial chain member equals the
original member with the start-number override on the first level of its
first item rewritten to one plus the item counts of all earlier members;
the first member and the chain length are unchanged; a second commit with
no intervening structural change alters nothing; and single-member chains
are a no-op. -/
theorem c3_commitChains_spec :
    (∀ c : List ChainMember,
      (commitChains c).length = c.length ∧
      (commitChains c).get? 0 = c.get? 0 ∧
      (∀ i m, 0 < i → c.get? i = some m →
        (commitChains c).get? i
          = some (setStartOverrideFirst m
              ((countsSum (c.take i) : Int) + 1))) ∧
      commitChains (commitChains c) = commitChains c) ∧
    (∀ m, commitChains [m] = [m]) := by
  constructor
  · intro c
    refine ⟨?_, ?_, ?_, ?_⟩
    · cases c with
      | nil => rfl
      | cons m rest => simp [commitChains, commitAux_length]
    · cases c with
      | nil => rfl
      | cons m rest => simp [commitChains]
    · intro i m hi hm
      cases c with
      | nil => simp at hm
      | cons m0 rest =>
        cases i with
        | zero => omega
        | succ i =>
          simp only [List.get?_eq_getElem?, List.getElem?_cons_succ] at hm
          have := commitAux_get? rest (memberCount m0) i m
            (by simpa [List.get?_eq_getElem?] using hm)
          simp only [commitChains, List.get?_eq_getElem?,
            List.getElem?_cons_succ]
          simp only [List.get?_eq_getElem?] at this
          rw [this]
          have harith : memberCount m0 + countsSum (rest.take i)
              = countsSum ((m0 :: rest).take (i + 1)) := by
            simp [countsSum, List.take_succ_cons]
          rw [harith]
    · cases c with
      | nil => rfl
      | cons m rest => simp [commitChains, commitAux_idem]
  · intro m
    rfl

/-- Concrete chain for the witness: item counts 2, 3, 1 as in the spec's
example. -/
def exLevel : ListLevel := ⟨ListKind.ordered, none, none⟩

def exMember (n : Nat) : ChainMember := ⟨List.replicate n [exLevel]⟩

def exChain : List ChainMember := [exMember 2, exMember 3, exMember 1]

/-- Witness for C3: on the chain with item counts 2, 3, 1 the second
member's override becomes 3 and the third member's override becomes 6. -/
theorem c3_commitChains_spec_witness :
    (commitChains exChain).get? 1
        = some (setStartOverrideFirst (exMember 3) 3) ∧
    (commitChains exChain).get? 2
        = some (setStartOverrideFirst (exMember 1) 6) := by
  constructor
  · have h := (c3_commitChains_spec.1 exChain).2.2.1 1 (exMember 3)
      (by decide) (by decide)
    rw [h]
    decide
  · have h := (c3_commitChains_spec.1 exChain).2.2.1 2 (exMember 1)
      (by decide) (by decide)
    rw [h]
    decide

/-! ### Style lexicons and inference

The `bulletListType` record is part of the provided sources; the
`BulletListType` / `NumberingListType` enumerations and the two
`getAuto…ListStyle` helpers are not, and are modelled from the spec
(§4.1): distinct nonzero codes per glyph, and a numbered-marker pattern of
an optional `(`, a 1–2-digit / 1–2-letter / roman-like token, and one of
`.` `)` `>` `-` (with the closing `)` required after an opening one). -/

namespace BulletListType

/-- Modelled from the spec: distinct enumerated glyph styles. -/
def Disc : Nat := 1

def Dash : Nat := 2

def Square : Nat := 3

def ShortArrow : Nat := 4

def LongArrow : Nat := 5

def UnfilledArrow : Nat := 6

def Hyphen : Nat := 7

def DoubleLongArrow : Nat := 8

end BulletListType

/-- Embedding of the `bulletListType` record of the unnamed source: the
eight-entry bullet lexicon. -/
def bulletListType (s : String) : Option Nat :=
  if s = "*" then some BulletListType.Disc
  else if s = "-" then some BulletListType.Dash
  else if s = "--" then some BulletListType.Square
  else if s = "->" then some BulletListType.LongArrow
  else if s = "-->" then some BulletListType.DoubleLongArrow
  else if s = "=>" then some BulletListType.UnfilledArrow
  else if s = ">" then some BulletListType.ShortArrow
  else if s = "—" then some BulletListType.Hyphen
  else none

/-- Numbering scheme families distinguished by the spec. -/
inductive NumScheme where
  | decimal
  | lowerAlpha
  | upperAlpha
  | lowerRoman
  | upperRoman
deriving DecidableEq, Repr

/-- Marker separators recognised by the spec. -/
inductive NumSep where
  | dot
  | dash
  | cp
  | gt
  | dparen
deriving DecidableEq, Repr

def schemeIdx : NumScheme → Nat
  | .decimal => 0
  | .lowerAlpha => 1
  | .upperAlpha => 2
  | .lowerRoman => 3
  | .upperRoman => 4

def sepIdx : NumSep → Nat
  | .dot => 0
  | .dash => 1
  | .cp => 2
  | .gt => 3
  | .dparen => 4

/-- Modelled from the spec: a distinct nonzero numbering-style code per
scheme and separator. -/
def encodeNumStyle (sc : NumScheme) (sep : NumSep) : Nat :=
  schemeIdx sc * 5 + sepIdx sep + 1

/-- Scheme family recorded in a numbering-style code. -/
def schemeOfStyle (n : Nat) : Option NumScheme :=
  if 1 ≤ n ∧ n ≤ 25 then
    some (match (n - 1) / 5 with
      | 0 => NumScheme.decimal
      | 1 => NumScheme.lowerAlpha
      | 2 => NumScheme.upperAlpha
      | 3 => NumScheme.lowerRoman
      | _ => NumScheme.upperRoman)
  else none

def isLowerRomanCh (c : Char) : Bool :=
  c = 'i' || c = 'v' || c = 'x' || c = 'l' || c = 'c' || c = 'd' || c = 'm'

def isUpperRomanCh (c : Char) : Bool :=
  c = 'I' || c = 'V' || c = 'X' || c = 'L' || c = 'C' || c = 'D' || c = 'M'

def sepOfChar (c : Char) : Option NumSep :=
  if c = '.' then some NumSep.dot
  else if c = '-' then some NumSep.dash
  else if c = ')' then some NumSep.cp
  else if c = '>' then some NumSep.gt
  else none

/-- Modelled from the spec: split a typed marker into its token and
separator — `tok` + one of `.` `)` `>` `-`, or `(` + `tok` + `)`. -/
def parseNumberingMarker (s : String) : Option (List Char × NumSep) :=
  let cs := s.toList
  if cs.head? = some '(' then
    let rest := cs.tail
    if rest.getLast? = some ')' && !(rest.dropLast = []) then
      some (rest.dropLast, NumSep.dparen)
    else none
  else
    match cs.getLast? with
    | some c =>
        match sepOfChar c with
        | some sp => if cs.dropLast = [] then none else some (cs.dropLast, sp)
        | none => none
    | none => none

/-- Modelled from the spec: classify a marker token as decimal, lettered
or roman, preferring continuation of the preceding list's scheme when a
short letter token is ambiguous between lettered and roman numbering. -/
def tokenScheme (tok : List Char) (prev : Option NumScheme) : Option NumScheme :=
  if tok.all Char.isDigit && (tok.length = 1 || tok.length = 2) then
    some NumScheme.decimal
  else if tok.all Char.isLower && (tok.length = 1 || tok.length = 2) then
    (if tok.all isLowerRomanCh && prev = some NumScheme.lowerRoman then
      some NumScheme.lowerRoman
    else some NumScheme.lowerAlpha)
  else if tok.all Char.isUpper && (tok.length = 1 || tok.length = 2) then
    (if tok.all isUpperRomanCh && prev = some NumScheme.upperRoman then
      some NumScheme.upperRoman
    else some NumScheme.upperAlpha)
  else if !(tok = []) && tok.all isLowerRomanCh then some NumScheme.lowerRoman
  else if !(tok = []) && tok.all isUpperRomanCh then some NumScheme.upperRoman
  else none

/-- Modelled from the spec: numbering-style inference for a typed marker
given the preceding list's stored style; the chain argument of the source
signature does not influence the returned style. -/
def getAutoNumberingListStyle (text : String) (chains : List ChainMember)
    (prevStyle : Option Nat) : Option Nat :=
  match parseNumberingMarker text with
  | none => none
  | some (tok, sep) =>
      match tokenScheme tok (prevStyle.bind schemeOfStyle) with
      | none => none
      | some sc => some (encodeNumStyle sc sep)

/-- Modelled from the spec: bullet-style inference is the bullet lexicon
applied to the typed text. -/
def getAutoBulletListStyle (text : String) (chains : List ChainMember)
    (prevStyle : Option Nat) : Option Nat :=
  bulletListType text

/-- JS numeric truthiness of a `number | null | undefined` value. -/
def jsTruthyNumO : Option Nat → Bool
  | some n => !(n = 0)
  | none => false

/-- JS numeric falsiness (`!value`). -/
def jsFalsyNumO : Option Nat → Bool
  | some n => n = 0
  | none => true

/-! ### Experimental auto-list trigger (`shouldTriggerList`)

The editor surface consulted by `shouldTriggerList` (content searcher,
previous-block traversal, metadata) is external; its observations are
rendered as fields of a trigger state.  `getSubStringBefore(n)` returns
the last at most `n` characters before the cursor. -/

structure TriggerState where
  textBefore : String
  hasNonTextInline : Bool
  chains : List ChainMember
  prevListItemExists : Bool
  prevOrderedStyle : Option Nat
  prevUnorderedStyle : Option Nat
  insideList : Bool
  autoFormatListEnabled : Bool

/-- `searcher.getSubStringBefore(n)`: last at most `n` characters. -/
def subStringBefore (st : TriggerState) (n : Nat) : String :=
  String.mk (st.textBefore.toList.drop (st.textBefore.toList.length - n))

/-- Embedding of `getPreviousListType(editor, textRange, listType)`: when
a previous `LI` block exists, the stored metadata style of its closest
`ol`/`ul` ancestor for the requested kind, rendered from state fields (the
DOM traversal and metadata codec are external). -/
def getPreviousListType (st : TriggerState) (lt : ListKind) : Option Nat :=
  if st.prevListItemExists then
    match lt with
    | .ordered => st.prevOrderedStyle
    | .unordered => st.prevUnorderedStyle
  else none

/-- Embedding of `shouldTriggerList(event, editor, getListStyle,
listType)`: a 4-character lookback, a whitespace test, the inferred style
with JS truthiness, and the `shouldTriggerNewListStyle` disjunction. -/
def shouldTriggerList (st : TriggerState)
    (getListStyle : String → List ChainMember → Option Nat → Option Nat)
    (listType : ListKind) : Bool :=
  let textBeforeCursor := subStringBefore st 4
  let itHasSpace := textBeforeCursor.toList.any Char.isWhitespace
  let previousListType := getPreviousListType st listType
  let isFirstItem := isFirstItemOfAList textBeforeCursor
  let listStyle := getListStyle textBeforeCursor st.chains previousListType
  let shouldTriggerNewListStyle :=
    isFirstItem.isSome || jsFalsyNumO previousListType
      || previousListType == listStyle || listType == ListKind.unordered
  !itHasSpace && !st.hasNonTextInline && jsTruthyNumO listStyle
    && shouldTriggerNewListStyle

/-- Embedding of `AutoNumberingList.shouldHandleEvent`: not inside a list,
the `AutoFormatList` experimental feature enabled, and the ordered trigger
test. -/
def autoNumberingListShouldHandle (st : TriggerState) : Bool :=
  !st.insideList && st.autoFormatListEnabled
    && shouldTriggerList st getAutoNumberingListStyle ListKind.ordered

/-- Embedding of `AutoBulletList.shouldHandleEvent`. -/
def autoBulletListShouldHandle (st : TriggerState) : Bool :=
  !st.insideList && st.autoFormatListEnabled
    && shouldTriggerList st getAutoBulletListStyle ListKind.unordered

/-- The trigger condition as claim C7 words it: style inference over the
last up-to-5 characters returns a concrete style, the text has no
whitespace, no non-text inline element precedes the cursor, and the cursor
is not already inside a list. -/
def c7ClaimCond (st : TriggerState)
    (getListStyle : String → List ChainMember → Option Nat → Option Nat)
    (listType : ListKind) : Bool :=
  let text5 := subStringBefore st 5
  jsTruthyNumO (getListStyle text5 st.chains (getPreviousListType st listType))
    && !(text5.toList.any Char.isWhitespace)
    && !st.hasNonTextInline
    && !st.insideList

/-- Trigger state refuting C7: the marker `"2)"` infers a concrete
decimal-parenthesis style, there is no whitespace, no inline element, the
cursor is outside any list and the feature is enabled, yet the predicate
does not fire because the preceding list's stored style is the distinct
decimal-dot style. -/
def c7State : TriggerState :=
  { textBefore := "2)"
    hasNonTextInline := false
    chains := []
    prevListItemExists := true
    prevOrderedStyle := some (encodeNumStyle NumScheme.decimal NumSep.dot)
    prevUnorderedStyle := none
    insideList := false
    autoFormatListEnabled := true }

/-- C7 counterexample: the claimed four-part condition holds at `c7State`
but `AutoNumberingList.shouldHandleEvent` is false — the claim omits the
`shouldTriggerNewListStyle` style-compatibility conjunct. -/
theorem c7_counterexample_style_conflict :
    autoNumberingListShouldHandle c7State = false
      ∧ c7ClaimCond c7State getAutoNumberingListStyle ListKind.ordered
          = true := by
  decide

/-- Style inferred from the 4-character lookback on the ordered path. -/
def numStyleAt4 (st : TriggerState) : Option Nat :=
  getAutoNumberingListStyle (subStringBefore st 4) st.chains
    (getPreviousListType st ListKind.ordered)

/-- Style inferred from the 4-character lookback on the unordered path. -/
def bulStyleAt4 (st : TriggerState) : Option Nat :=
  getAutoBulletListStyle (subStringBefore st 4) st.chains
    (getPreviousListType st ListKind.unordered)

/-- C7 (amended): the experimental predicates fire exactly when style
inference over the last up-to-4 characters returns a concrete style, that
text contains no whitespace, no non-text inline element precedes the
cursor, the cursor is not inside a list, the `AutoFormatList` feature is
enabled, and — on the ordered path only — the marker signals a first item,
or no previous list style is recorded, or the recorded style equals the
inferred one. -/
theorem c7_trigger_characterization (st : TriggerState) :
    (autoNumberingListShouldHandle st = true ↔
      (st.insideList = false ∧ st.autoFormatListEnabled = true ∧
        jsTruthyNumO (numStyleAt4 st) = true ∧
        (subStringBefore st 4).toList.any Char.isWhitespace = false ∧
        st.hasNonTextInline = false ∧
        ((isFirstItemOfAList (subStringBefore st 4)).isSome = true
          ∨ jsFalsyNumO (getPreviousListType st ListKind.ordered) = true
          ∨ getPreviousListType st ListKind.ordered = numStyleAt4 st)))
    ∧ (autoBulletListShouldHandle st = true ↔
      (st.insideList = false ∧ st.autoFormatListEnabled = true ∧
        jsTruthyNumO (bulStyleAt4 st) = true ∧
        (subStringBefore st 4).toList.any Char.isWhitespace = false ∧
        st.hasNonTextInline = false)) := by
  constructor
  · unfold autoNumberingListShouldHandle shouldTriggerList numStyleAt4
    simp only [Bool.and_eq_true, Bool.not_eq_true', Bool.or_eq_true,
      beq_iff_eq]
    constructor
    · intro h
      tauto
    · intro h
      tauto
  · unfold autoBulletListShouldHandle shouldTriggerList bulStyleAt4
    simp only [Bool.and_eq_true, Bool.not_eq_true', Bool.or_eq_true,
      beq_iff_eq]
    constructor
    · intro h
      tauto
    · intro h
      tauto

/-! ### `getListStyleType` (unnamed source)

`getSelectedSegmentsAndParagraphs` and `getOperationalBlocks` are external
accessors; their observations form the input.  JS property access on
`undefined` — `selectedSegmentsAndParagraphs[0][0]` on an empty selection
and `list?.levels[0].dataset` on a previous list item with empty levels —
is rendered as `Except.error ()`. -/

deriving instance DecidableEq for Except

/-- One entry of `getSelectedSegmentsAndParagraphs`: the selected segment
and its paragraph (the paragraph as its segment list). -/
structure SelEntry where
  seg : Segment
  para : Option (List Segment)

/-- One entry of `getOperationalBlocks`: a block and its parent group. -/
structure OpBlock where
  block : Block
  parent : BlockGroup

/-- The external observations `getListStyleType` consumes. -/
structure StyleInput where
  ssp : List SelEntry
  opBlocks : List OpBlock

/-- Result record `{ listType, styleType, index? }`; `ListKind.unordered`
renders `'UL'` and `ListKind.ordered` renders `'OL'`. -/
structure StyleResult where
  listType : ListKind
  styleType : Nat
  index : Option Nat
deriving DecidableEq, Repr

/-- Modelled from the spec: the metadata codec read
`updateListMetadata(level)` returns the parsed metadata of the level's
dataset, or nothing. -/
def updateListMetadata (lvl : ListLevel) : Option MetaRec :=
  lvl.dataset

/-- Embedding of `getPreviousListLevel(model, paragraph)`: among the
operational blocks, take the first whose parent contains the paragraph,
then scan that parent's blocks from the end for the last `ListItem`. -/
def getPreviousListLevel (inp : StyleInput) (para : List Segment) :
    Option BlockGroup :=
  let listBlock := (inp.opBlocks.filter fun ob =>
      ob.parent.blocksOf.contains (Block.paragraph para)).head?
  match listBlock with
  | none => none
  | some lb =>
      lb.parent.blocksOf.reverse.findSome? fun b =>
        match b with
        | Block.group g =>
            if g.gt == GroupKind.listItem then some g else none
        | _ => none

/-- Embedding of `getPreviousListStyle(list)`: `list?.levels[0].dataset`
is truthy exactly when the list exists and has a first level (the dataset
object itself is always truthy), but the access throws when the list
exists with an empty levels sequence. -/
def getPreviousListStyleE (list : Option BlockGroup) :
    Except Unit (Option Nat) :=
  match list with
  | none => Except.ok none
  | some l =>
      match l.levelsOf.get? 0 with
      | none => Except.error ()
      | some lvl =>
          Except.ok ((updateListMetadata lvl).bind fun m => m.orderedStyleType)

/-- Modelled from the spec: `getNumberingListStyle(listMarker,
previousListFormatStyle, previousListStyle)` infers the numbering style of
the marker, preferring the decoded previous style for ambiguous tokens. -/
def getNumberingListStyle (marker : String) (prevFormatStyle : Option Nat)
    (prevStyle : Option Nat) : Option Nat :=
  getAutoNumberingListStyle marker []
    (prevStyle.orElse fun _ => prevFormatStyle)

/-- Modelled from the spec: `getIndex(listMarker)` — the parsed integer a
numeric marker denotes ("start number equal to the parsed integer"),
defaulting to `1` for non-numeric markers. -/
def getIndex (marker : String) : Nat :=
  match parseIntJS marker with
  | some n => n.toNat
  | none => 1

/-- Embedding of `getListStyleType(editor)`: resolve the first selected
entry (throwing on an empty selection), require a selection marker whose
paragraph starts with a text segment, consult the bullet lexicon, and
otherwise infer a numbering style from the previous list level. -/
def getListStyleTypeE (inp : StyleInput) : Except Unit (Option StyleResult) :=
  match inp.ssp.get? 0 with
  | none => Except.error ()
  | some entry =>
      match entry.seg, entry.para with
      | Segment.selectionMarker _, some p =>
          match p.get? 0 with
          | some (Segment.text listMarker _) =>
              let bulletType := bulletListType listMarker
              if jsTruthyNumO bulletType then
                Except.ok (some
                  ⟨ListKind.unordered, bulletType.getD 0, none⟩)
              else
                let previousList := getPreviousListLevel inp p
                match getPreviousListStyleE previousList with
                | Except.error e => Except.error e
                | Except.ok previousListStyle =>
                    let numberingType := getNumberingListStyle listMarker
                      (previousList.bind fun l => l.fmtStyleOf)
                      previousListStyle
                    if jsTruthyNumO numberingType then
                      Except.ok (some
                        ⟨ListKind.ordered, numberingType.getD 0,
                          if previousList.isSome then some (getIndex listMarker)
                          else none⟩)
                    else Except.ok none
          | _ => Except.ok none
      | _, _ => Except.ok none

/-- Selection input whose paragraph leads with the given marker text. -/
def mkBulletInput (m : String) : StyleInput :=
  ⟨[⟨Segment.selectionMarker true, some [Segment.text m false]⟩], []⟩

/-- C4: each of the eight bullet-lexicon markers makes `getListStyleType`
return the unordered (`'UL'`) result carrying that marker's glyph style
and no numbering index, and the eight glyph styles are pairwise
distinct. -/
theorem c4_bullet_lexicon_styles :
    getListStyleTypeE (mkBulletInput "*")
        = Except.ok (some ⟨ListKind.unordered, BulletListType.Disc, none⟩)
    ∧ getListStyleTypeE (mkBulletInput "-")
        = Except.ok (some ⟨ListKind.unordered, BulletListType.Dash, none⟩)
    ∧ getListStyleTypeE (mkBulletInput "--")
        = Except.ok (some ⟨ListKind.unordered, BulletListType.Square, none⟩)
    ∧ getListStyleTypeE (mkBulletInput "->")
        = Except.ok (some ⟨ListKind.unordered, BulletListType.LongArrow, none⟩)
    ∧ getListStyleTypeE (mkBulletInput "-->")
        = Except.ok (some
            ⟨ListKind.unordered, BulletListType.DoubleLongArrow, none⟩)
    ∧ getListStyleTypeE (mkBulletInput "=>")
        = Except.ok (some
            ⟨ListKind.unordered, BulletListType.UnfilledArrow, none⟩)
    ∧ getListStyleTypeE (mkBulletInput ">")
        = Except.ok (some ⟨ListKind.unordered, BulletListType.ShortArrow, none⟩)
    ∧ getListStyleTypeE (mkBulletInput "—")
        = Except.ok (some ⟨ListKind.unordered, BulletListType.Hyphen, none⟩)
    ∧ List.Nodup [BulletListType.Disc, BulletListType.Dash,
        BulletListType.Square, BulletListType.LongArrow,
        BulletListType.DoubleLongArrow, BulletListType.UnfilledArrow,
        BulletListType.ShortArrow, BulletListType.Hyphen] := by
  decide

/-- C8 counterexample: with an empty selection,
`getSelectedSegmentsAndParagraphs(model, true)` is empty and
`selectedSegmentsAndParagraphs[0][0]` throws — `getListStyleType` is not
total on all editor states. -/
theorem c8_counterexample_empty_selection :
    getListStyleTypeE ⟨[], []⟩ = Except.error () := by
  decide

/-- C8 (amended): `getListStyleType` throws no exception provided the
selection resolution yields at least one entry and any previous list item
it consults has a non-empty levels sequence; under those hypotheses every
lookup failure is absorbed and the function returns a style result or
nothing. -/
theorem c8_getListStyleType_total (inp : StyleInput)
    (h1 : inp.ssp ≠ [])
    (h2 : ∀ (para : List Segment) (li : BlockGroup),
      getPreviousListLevel inp para = some li → li.levelsOf ≠ []) :
    ∃ r, getListStyleTypeE inp = Except.ok r := by
  obtain ⟨ssp, ob⟩ := inp
  cases ssp with
  | nil => exact absurd rfl h1
  | cons entry rest =>
    obtain ⟨seg, para⟩ := entry
    cases seg with
    | selectionMarker sel =>
      cases para with
      | none => exact ⟨none, rfl⟩
      | some p =>
        cases hp0 : p[(0 : Nat)]? with
        | none =>
          exact ⟨none, by
            simp [getListStyleTypeE, List.get?_eq_getElem?, hp0]⟩
        | some s0 =>
          cases s0 with
          | text listMarker ts =>
            by_cases hb : jsTruthyNumO (bulletListType listMarker) = true
            · refine ⟨some ⟨ListKind.unordered,
                (bulletListType listMarker).getD 0, none⟩, ?_⟩
              simp [getListStyleTypeE, List.get?_eq_getElem?, hp0, hb]
            · have hbf : jsTruthyNumO (bulletListType listMarker) = false :=
                by simpa using hb
              cases hprev : getPreviousListLevel
                  ⟨⟨Segment.selectionMarker sel, some p⟩ :: rest, ob⟩ p with
              | none =>
                simp only [getListStyleTypeE, List.get?_eq_getElem?,
                  List.getElem?_cons_zero, hp0, hbf, Bool.false_eq_true,
                  if_false, hprev, getPreviousListStyleE]
                split <;> exact ⟨_, rfl⟩
              | some li =>
                have hlv := h2 p li hprev
                obtain ⟨lvl, hlvl⟩ : ∃ lvl, li.levelsOf[(0 : Nat)]? = some lvl := by
                  cases hll : li.levelsOf with
                  | nil => exact absurd hll hlv
                  | cons a as => exact ⟨a, by simp [hll]⟩
                simp only [getListStyleTypeE, List.get?_eq_getElem?,
                  List.getElem?_cons_zero, hp0, hbf, Bool.false_eq_true,
                  if_false, hprev, getPreviousListStyleE, hlvl]
                split <;> exact ⟨_, rfl⟩
          | selectionMarker s =>
            exact ⟨none, by
              simp [getListStyleTypeE, List.get?_eq_getElem?, hp0]⟩
          | br s =>
            exact ⟨none, by
              simp [getListStyleTypeE, List.get?_eq_getElem?, hp0]⟩
          | otherSeg s =>
            exact ⟨none, by
              simp [getListStyleTypeE, List.get?_eq_getElem?, hp0]⟩
    | br s => exact ⟨none, rfl⟩
    | text c s => exact ⟨none, rfl⟩
    | otherSeg s => exact ⟨none, rfl⟩

/-- Input for the C8 witness: one selected marker before a numbered-marker
paragraph and no surrounding operational blocks. -/
def c8Input : StyleInput :=
  ⟨[⟨Segment.selectionMarker true, some [Segment.text "2." false]⟩], []⟩

/-- Witness for C8 (amended): on a concrete selection the guarded call
returns without throwing. -/
theorem c8_getListStyleType_total_witness :
    ∃ r, getListStyleTypeE c8Input = Except.ok r := by
  refine c8_getListStyleType_total c8Input (by simp [c8Input]) ?_
  intro para li h
  simp [getPreviousListLevel, c8Input] at h

end Roosterjs
